import Mathlib

/-!
Verification of the reminder lifecycle engine of `src/remindme.rs`.

The Rust source is shallowly embedded:
* machine integers (`i64`, `u32`, `u64`, `i32`) are `Int`/`Nat` with the
  relevant range checks made explicit where the Rust code checks them;
* `chrono::Duration` values produced here are whole numbers of seconds and
  are represented as `Int` (the constructors used by the source only ever
  produce whole-second durations); constructors that panic in chrono when
  the duration is out of bounds are modelled as `Option`-returning, `none`
  standing for a panic;
* `chrono::NaiveDateTime` instants are `Int` UTC timestamps in seconds,
  bounded by chrono's representable range; sub-second precision is not
  needed by any claim and is not modelled;
* the database is explicit state (`DB`, a list of rows) threaded through
  the functions; connection/query failures of the opaque storage
  collaborator are injected through oracles, and the wall clock
  (`Utc::now()` / SQL `current_timestamp`) is an explicit parameter;
* fallible Rust functions return `Except`/`Option`.
-/

/-- The fixed usage string (`static USAGE` in the source). -/
def USAGE : String :=
  "Usage: `!remindme x scale`, where `x` is a number, " ++
  "and scale is `minutes`, `hours`, `days` or `weeks`."

/-- One character of Rust's `str::to_lowercase`: the full Unicode lowercase
mapping of the character (a character sequence).  Modelled exactly for
every mapping whose output involves ASCII — `A`..`Z` lowercase to
`a`..`z`, U+212A KELVIN SIGN lowercases to `k`, and U+0130 LATIN CAPITAL
LETTER I WITH DOT ABOVE expands to `i` followed by U+0307 COMBINING DOT
ABOVE; these are the only such mappings in Unicode.  All remaining case
mappings send non-ASCII characters to non-ASCII characters (e.g. Greek,
Cyrillic, the final-sigma rule) and are left as the identity here: they
can never make a string equal to the ASCII-only tokens `interval`
compares against, nor stop it from differing from them. -/
def rustCharLowercase (c : Char) : List Char :=
  if c = '\u212A' then ['k']
  else if c = '\u0130' then ['i', '\u0307']
  else [c.toLower]

/-- Rust's `str::to_lowercase` as used on scale tokens: concatenation of
each character's lowercase mapping. -/
def rustToLowercase (s : String) : String := ⟨s.data.flatMap rustCharLowercase⟩

/-- `i64::MAX`. -/
def i64Max : Int := 9223372036854775807

/-- `i64::MIN`. -/
def i64Min : Int := -9223372036854775808

/-- Rust `i64::checked_mul`: `none` on overflow. -/
def checkedMulI64 (a b : Int) : Option Int :=
  if i64Min ≤ a * b ∧ a * b ≤ i64Max then some (a * b) else none

/-- Largest whole-second value representable by `chrono::Duration`
(`Duration::MAX` is `i64::MAX` milliseconds, i.e. `i64::MAX / 1000`
seconds plus a fractional part). -/
def durMaxSecs : Int := 9223372036854775

/-- For a whole-second duration `d`, `d < Duration::MIN` holds exactly when
`d.secs ≤ durMinSecsLt` (`Duration::MIN` is `i64::MIN` milliseconds, whose
seconds component is `⌊i64::MIN / 1000⌋` with a positive nanos part). -/
def durMinSecsLt : Int := -9223372036854776

/-- `chrono::Duration::seconds`: panics (here `none`) when the value lies
outside `[Duration::MIN, Duration::MAX]`. -/
def durationSeconds (s : Int) : Option Int :=
  if s ≤ durMinSecsLt ∨ durMaxSecs < s then none else some s

/-- `chrono::Duration::minutes`: `checked_mul` by 60 then `seconds`;
panics (`none`) when out of bounds. -/
def durationMinutes (n : Int) : Option Int := (checkedMulI64 n 60).bind durationSeconds

/-- `chrono::Duration::hours`. -/
def durationHours (n : Int) : Option Int := (checkedMulI64 n 3600).bind durationSeconds

/-- `chrono::Duration::days`. -/
def durationDays (n : Int) : Option Int := (checkedMulI64 n 86400).bind durationSeconds

/-- `chrono::Duration::weeks`. -/
def durationWeeks (n : Int) : Option Int := (checkedMulI64 n 604800).bind durationSeconds

/-- `fn interval(num: i64, scale: &str) -> Result<Duration, String>` from the
source.  The outer `Option` records a possible panic of the chrono duration
constructors (`none` = panic); the inner `Except` is the Rust `Result`. -/
def interval (num : Int) (scale : String) : Option (Except String Int) :=
  let s := rustToLowercase scale
  if s = "minutes" ∨ s = "minute" then (durationMinutes num).map Except.ok
  else if s = "hours" ∨ s = "hour" then (durationHours num).map Except.ok
  else if s = "days" ∨ s = "day" then (durationDays num).map Except.ok
  else if s = "weeks" ∨ s = "week" then (durationWeeks num).map Except.ok
  else some (Except.error ("Invalid duration scale.\n" ++ USAGE))

/-- Timestamp (seconds) of `chrono::naive::MIN_DATE.and_hms(0, 0, 0)`,
the smallest representable `NaiveDateTime` instant. -/
def ndtMinTs : Int := -8334632851200

/-- Timestamp (seconds) of `chrono::naive::MAX_DATE.and_hms(23, 59, 59)`,
the largest representable whole-second `NaiveDateTime` instant. -/
def ndtMaxTs : Int := 8210298412799

/-- `NaiveDateTime::checked_add_signed`: `none` when the sum leaves the
representable range. -/
def checked_add_signed (t d : Int) : Option Int :=
  if ndtMinTs ≤ t + d ∧ t + d ≤ ndtMaxTs then some (t + d) else none

/-- Zero-pad a number to two digits (chrono format specifiers
`%m`, `%d`, `%H`, `%M`, `%S`). -/
def pad2 (n : Nat) : String := if n < 10 then "0" ++ toString n else toString n

/-- Zero-pad a year to at least four digits (chrono `%Y`). -/
def pad4 (n : Nat) : String :=
  if n < 10 then "000" ++ toString n
  else if n < 100 then "00" ++ toString n
  else if n < 1000 then "0" ++ toString n
  else toString n

/-- Proleptic-Gregorian civil date from a day count relative to 1970-01-01
(the standard `civil_from_days` algorithm chrono's date formatting
realises). Returns `(year, month, day)`. -/
def civilFromDays (z0 : Int) : Int × Nat × Nat :=
  let z := z0 + 719468
  let era := z.ediv 146097
  let doe := (z - era * 146097).toNat
  let yoe := (doe - doe / 1460 + doe / 36524 - doe / 146096) / 365
  let doy := doe - (365 * yoe + yoe / 4 - yoe / 100)
  let mp := (5 * doy + 2) / 153
  let d := doy - (153 * mp + 2) / 5 + 1
  let m := if mp < 10 then mp + 3 else mp - 9
  let y : Int := (yoe : Int) + era * 400
  (if m ≤ 2 then y + 1 else y, m, d)

/-- `date.format("%Y-%m-%d %H:%M:%S")` on a whole-second UTC timestamp. -/
def formatDate (t : Int) : String :=
  let days := t.ediv 86400
  let sod := (t.emod 86400).toNat
  let c := civilFromDays days
  let yearStr := if c.1 < 0 then "-" ++ pad4 (-c.1).toNat else pad4 c.1.toNat
  yearStr ++ "-" ++ pad2 c.2.1 ++ "-" ++ pad2 c.2.2 ++ " " ++
    pad2 (sod / 3600) ++ ":" ++ pad2 (sod % 3600 / 60) ++ ":" ++ pad2 (sod % 60)

/-- Little-endian decimal digits of `n`, with explicit fuel (the recursion
is on the fuel; `n` itself is always enough fuel). -/
def natToDigitsAux : Nat → Nat → List Nat
  | 0, _ => []
  | _ + 1, 0 => []
  | fuel + 1, n + 1 => ((n + 1) % 10) :: natToDigitsAux fuel ((n + 1) / 10)

/-- Little-endian decimal digits of `n` (empty for 0). -/
def natDecDigits (n : Nat) : List Nat := natToDigitsAux n n

/-- Rust's `format!("{}", u)` for an unsigned integer: plain decimal. -/
def u64Display (n : Nat) : String :=
  if n = 0 then "0" else ⟨(natDecDigits n).reverse.map Nat.digitChar⟩

/-- `2^64`, one more than `u64::MAX`. -/
def u64Count : Nat := 18446744073709551616

/-- Digit-string part of Rust's `u64::from_str`: all characters must be
decimal digits and the value must fit in `u64`; `none` models both
`InvalidDigit` and overflow errors. -/
def parseDigitsU64 (digits : List Char) : Option Nat :=
  if digits.all Char.isDigit then
    let n := digits.foldl (fun acc c => acc * 10 + (c.toNat - 48)) 0
    if n < u64Count then some n else none
  else none

/-- Rust's `u64::from_str` (`from_str_radix` with radix 10): optional
leading `+`, then a non-empty run of decimal digits fitting in `u64`. -/
def u64FromStr (s : String) : Option Nat :=
  match s.data with
  | [] => none
  | c :: rest =>
    let digits := if c = '+' then rest else c :: rest
    if digits = [] then none else parseDigitsU64 digits

/-- `serenity::model::id::UserId::from_str` as used by `dm_with_message`:
parses the decimal text of the numeric id (`UserId` is a newtype over
`u64`). -/
def userIdFromStr (s : String) : Option Nat := u64FromStr s

/-- `command_error::CommandError` as observed by this module: the generic
string variant used for the overflow message, and the storage variant the
`?` conversions produce for connection/query failures. -/
inductive CommandError
  | generic (msg : String)
  | storage
deriving DecidableEq

/-- A row of the `reminders` table (`id` is the auto-assigned `i32` key,
`date` the `due_at` timestamp). -/
structure Row where
  id : Int
  user_id : String
  date : Int
  message : String
deriving DecidableEq

/-- `struct Reminder` from the source (the claim query selects `id`,
`user_id`, `message`). -/
structure Reminder where
  id : Int
  user_id : String
  message : String
deriving DecidableEq

/-- Reading a selected row into the source's `Reminder` struct. -/
def Row.toReminder (r : Row) : Reminder := ⟨r.id, r.user_id, r.message⟩

/-- The state of the `reminders` table. -/
structure DB where
  rows : List Row
deriving DecidableEq

/-- Failure injection for the storage collaborator during `remindme`:
`get_conn` failure and `INSERT` failure. -/
structure CreateOracle where
  connFails : Bool
  insertFails : Bool

/-- `pub fn remindme(num: u32, scale, message, user_id, pool)` from the
source.  `now` is `Utc::now().naive_utc()`, `freshId` the id the database
would assign to the inserted row, and the outer `Option` records a panic
(`none`), which the chrono constructors can only raise for counts beyond
the `u32` range of `num`. -/
def remindme (num : Nat) (scale : String) (message : String) (user_id : Nat)
    (now : Int) (o : CreateOracle) (freshId : Int) (db : DB) :
    Option (Except CommandError String × DB) :=
  let uidStr := u64Display user_id
  match interval (Int.ofNat num) scale with
  | none => none
  | some (Except.error why) => some (Except.ok why, db)
  | some (Except.ok iv) =>
    match checked_add_signed now iv with
    | none => some (Except.error (CommandError.generic "Date overflow"), db)
    | some date =>
      if o.connFails then some (Except.error CommandError.storage, db)
      else if o.insertFails then some (Except.error CommandError.storage, db)
      else some (Except.ok ("Reminder set for " ++ formatDate date ++ " UTC."),
                 ⟨db.rows ++ [⟨freshId, uidStr, date, message⟩]⟩)

deriving instance DecidableEq for Except

/-- Failure injection for the storage collaborator during the claim
operation: `get_conn` failure, `SELECT` failure, and per-id `DELETE`
failure. -/
structure StorageOracle where
  connFails : Bool
  queryFails : Bool
  deleteFails : Int → Bool

/-- The `for row in rows.iter() { conn.execute("DELETE ...")?; }` loop of
`get_expired_reminders`: deletes the selected rows one statement at a
time (each statement autocommits; there is no surrounding transaction).
Returns the resulting table and whether every delete succeeded; on the
first failing delete the loop stops with the deletions made so far kept. -/
def deleteRows : List Reminder → StorageOracle → DB → DB × Bool
  | [], _, db => (db, true)
  | r :: rest, o, db =>
    if o.deleteFails r.id then (db, false)
    else deleteRows rest o ⟨db.rows.filter (fun row => row.id ≠ r.id)⟩

/-- `fn get_expired_reminders(pool) -> Result<Vec<Reminder>, CommandError>`:
select `id, user_id, message` of every row with `date < current_timestamp`
(`now`), then delete each selected row by id.  The storage error payload is
uninformative for the claims, so it is `Unit`. -/
def get_expired_reminders (now : Int) (o : StorageOracle) (db : DB) :
    Except Unit (List Reminder) × DB :=
  if o.connFails then (Except.error (), db)
  else if o.queryFails then (Except.error (), db)
  else
    let rems := (db.rows.filter (fun r => r.date < now)).map Row.toReminder
    let res := deleteRows rems o db
    if res.2 then (Except.ok rems, res.1) else (Except.error (), res.1)

/-- The reminders a claim call hands to the caller: the returned list on
success, nothing on a storage error. -/
def claimed : Except Unit (List Reminder) → List Reminder
  | Except.ok l => l
  | Except.error _ => []

/-- A sequence of further claim calls (arbitrary clock values and failure
injections), tracking only the storage state. -/
def runClaims : List (Int × StorageOracle) → DB → DB
  | [], db => db
  | (n, o) :: rest, db => runClaims rest (get_expired_reminders n o db).2

/-- Failure injection for the messaging collaborator inside
`dm_with_message`: `userid.get()` failure and `direct_message` failure. -/
structure DMOracle where
  getFails : Bool
  sendFails : Bool

/-- The fixed fallback text sent when the reminder message is empty. -/
def fallbackText : String :=
  "Hello! You asked me to remind you of something at this time,\nbut you didn\x27t specify what!"

/-- The text placed before a non-empty reminder message. -/
def dmHeader : String := "Hello! You asked me to remind you of the following: "

/-- The `response` string `dm_with_message` builds from the stored
message. -/
def dm_response (message : String) : String :=
  if message = "" then fallbackText else dmHeader ++ message

/-- `fn dm_with_message(user_id: String, message: String) -> Result<(), String>`:
parse the stored decimal id, resolve the user, and send the response.  On
success the model returns the text that was sent (the Rust function's
observable side effect; its own return value is `()`). -/
def dm_with_message (o : DMOracle) (user_id message : String) : Except String String :=
  match userIdFromStr user_id with
  | none => Except.error "Failed to get user id"
  | some _ =>
    if o.getFails then Except.error "Failed to get user"
    else if o.sendFails then Except.error "Failed to DM user"
    else Except.ok (dm_response message)

/-- The operator-visible `error!` events of one poll-loop iteration. -/
inductive LogEvent
  | claimFailed
  | dmFailed (r : Reminder)
deriving DecidableEq

/-- Observable behaviour of one iteration of `watch_for_reminders`:
the sleep length, the claim outcome, each attempted delivery with its
result, and the logged errors. -/
structure TickTrace where
  sleepSecs : Nat
  claimResult : Except Unit (List Reminder)
  deliveries : List (Reminder × Except String String)
  logs : List LogEvent
deriving DecidableEq

/-- The environment of one iteration: the clock at the claim query, the
storage failure injection, and the messaging failure injection for each
reminder. -/
structure TickInput where
  now : Int
  storage : StorageOracle
  dm : Reminder → DMOracle

/-- One iteration of the `loop` body of `watch_for_reminders`: sleep 60
seconds, claim expired reminders (logging a failure and delivering
nothing), then attempt delivery for each claimed reminder in order,
logging each delivery failure. -/
def tick (inp : TickInput) (db : DB) : DB × TickTrace :=
  match get_expired_reminders inp.now inp.storage db with
  | (Except.error e, db1) => (db1, ⟨60, Except.error e, [], [LogEvent.claimFailed]⟩)
  | (Except.ok rows, db1) =>
    let dels := rows.map (fun r => (r, dm_with_message (inp.dm r) r.user_id r.message))
    let logs := dels.filterMap (fun p =>
      match p.2 with
      | Except.error _ => some (LogEvent.dmFailed p.1)
      | Except.ok _ => none)
    (db1, ⟨60, Except.ok rows, dels, logs⟩)

/-- `watch_for_reminders` run for a finite schedule of iterations; the
loop itself never exits, so every schedule yields exactly one trace per
scheduled iteration. -/
def runTicks : List TickInput → DB → DB × List TickTrace
  | [], db => (db, [])
  | inp :: rest, db =>
    let t := tick inp db
    let r := runTicks rest t.1
    (r.1, t.2 :: r.2)

/-- `v` is a letter-case variant of the lowercase ASCII token `t`: the same
length, and at each position either `t`'s character itself or its uppercase
form. -/
def caseVariant (v t : String) : Prop :=
  v.data.length = t.data.length ∧
  ∀ p ∈ v.data.zip t.data, p.1 = p.2 ∨ p.1 = p.2.toUpper

instance (v t : String) : Decidable (caseVariant v t) := by
  unfold caseVariant; infer_instance

/-- A storage oracle injecting no failures (normal operation). -/
def noFailStorage : StorageOracle := ⟨false, false, fun _ => false⟩

/-- A messaging oracle injecting no failures. -/
def noFailDM : DMOracle := ⟨false, false⟩

/-! ### Helper lemmas about the duration constructors and scale matching -/

/-- Within the `u32` count range every chrono constructor used by
`interval` stays in bounds and returns the exact product. -/
theorem durMul_within (n k : Int) (h0 : 0 ≤ n) (h1 : n ≤ 4294967295)
    (hk0 : 0 < k) (hk1 : k ≤ 604800) :
    (checkedMulI64 n k).bind durationSeconds = some (n * k) := by
  have hnk0 : 0 ≤ n * k := mul_nonneg h0 (le_of_lt hk0)
  have hnk1 : n * k ≤ 4294967295 * 604800 :=
    mul_le_mul h1 hk1 (le_of_lt hk0) (by norm_num)
  have hc : (4294967295 : Int) * 604800 = 2597596220016000 := by norm_num
  rw [hc] at hnk1
  have hmul : checkedMulI64 n k = some (n * k) := by
    unfold checkedMulI64
    rw [if_pos ⟨by unfold i64Min; omega, by unfold i64Max; omega⟩]
  rw [hmul, Option.some_bind]
  unfold durationSeconds
  rw [if_neg]
  unfold durMinSecsLt durMaxSecs
  omega

theorem durationMinutes_u32 (n : Int) (h0 : 0 ≤ n) (h1 : n ≤ 4294967295) :
    durationMinutes n = some (n * 60) :=
  durMul_within n 60 h0 h1 (by norm_num) (by norm_num)

theorem durationHours_u32 (n : Int) (h0 : 0 ≤ n) (h1 : n ≤ 4294967295) :
    durationHours n = some (n * 3600) :=
  durMul_within n 3600 h0 h1 (by norm_num) (by norm_num)

theorem durationDays_u32 (n : Int) (h0 : 0 ≤ n) (h1 : n ≤ 4294967295) :
    durationDays n = some (n * 86400) :=
  durMul_within n 86400 h0 h1 (by norm_num) (by norm_num)

theorem durationWeeks_u32 (n : Int) (h0 : 0 ≤ n) (h1 : n ≤ 4294967295) :
    durationWeeks n = some (n * 604800) :=
  durMul_within n 604800 h0 h1 (by norm_num) (by norm_num)

/-- Character-wise: lowercasing a case variant of a lowercase ASCII token
recovers the token. -/
theorem bind_lower_variant : ∀ (V T : List Char), V.length = T.length →
    (∀ p ∈ V.zip T, p.1 = p.2 ∨ p.1 = p.2.toUpper) →
    (∀ c ∈ T, rustCharLowercase c = [c] ∧ rustCharLowercase c.toUpper = [c]) →
    V.flatMap rustCharLowercase = T := by
  intro V
  induction V with
  | nil =>
    intro T h _ _
    cases T with
    | nil => rfl
    | cons t T => simp at h
  | cons v V ih =>
    intro T h hp ht
    cases T with
    | nil => simp at h
    | cons t T =>
      have hlen : V.length = T.length := by simpa using h
      have hhead : v = t ∨ v = t.toUpper := hp (v, t) (by simp)
      have htf := ht t (by simp)
      have hlow : rustCharLowercase v = [t] := by
        rcases hhead with h1 | h1
        · rw [h1]; exact htf.1
        · rw [h1]; exact htf.2
      rw [List.flatMap_cons, hlow]
      simp only [List.singleton_append, List.cons.injEq, true_and]
      exact ih T hlen (fun p hp2 => hp p (by simp [hp2]))
        (fun c hc => ht c (by simp [hc]))

/-- Lowercasing a case variant of a lowercase ASCII token recovers the
token. -/
theorem caseVariant_lower (v t : String) (hv : caseVariant v t)
    (ht : ∀ c ∈ t.data, rustCharLowercase c = [c] ∧
      rustCharLowercase c.toUpper = [c]) :
    rustToLowercase v = t := by
  apply String.ext
  exact bind_lower_variant v.data t.data hv.1 hv.2 ht

/-! ### C6: case-insensitive singular/plural scale tokens -/

/-- C6 (amended): for every count in the command's `u32` range and every
letter-case variant of the singular or plural tokens minute(s), hour(s),
day(s), week(s), `interval` returns exactly the duration of that count in
the matching unit (in seconds: 60, 3600, 86400, 604800 per count unit);
for counts whose scaled duration leaves chrono's bounds the constructor
panics instead (see the counterexample). -/
theorem interval_case_insensitive_units (num : Int) (v : String)
    (h0 : 0 ≤ num) (h1 : num ≤ 4294967295) :
    ((caseVariant v "minutes" ∨ caseVariant v "minute") →
      interval num v = some (Except.ok (num * 60))) ∧
    ((caseVariant v "hours" ∨ caseVariant v "hour") →
      interval num v = some (Except.ok (num * 3600))) ∧
    ((caseVariant v "days" ∨ caseVariant v "day") →
      interval num v = some (Except.ok (num * 86400))) ∧
    ((caseVariant v "weeks" ∨ caseVariant v "week") →
      interval num v = some (Except.ok (num * 604800))) := by
  refine ⟨?_, ?_, ?_, ?_⟩
  · rintro (hv | hv)
    · have hl : rustToLowercase v = "minutes" := caseVariant_lower v _ hv (by decide)
      simp only [interval, hl]
      rw [if_pos (Or.inl trivial), durationMinutes_u32 num h0 h1]
      rfl
    · have hl : rustToLowercase v = "minute" := caseVariant_lower v _ hv (by decide)
      simp only [interval, hl]
      rw [if_pos (Or.inr trivial), durationMinutes_u32 num h0 h1]
      rfl
  · rintro (hv | hv)
    · have hl : rustToLowercase v = "hours" := caseVariant_lower v _ hv (by decide)
      simp only [interval, hl]
      rw [if_pos (Or.inl trivial), durationHours_u32 num h0 h1]
      rfl
    · have hl : rustToLowercase v = "hour" := caseVariant_lower v _ hv (by decide)
      simp only [interval, hl]
      rw [if_pos (Or.inr trivial), durationHours_u32 num h0 h1]
      rfl
  · rintro (hv | hv)
    · have hl : rustToLowercase v = "days" := caseVariant_lower v _ hv (by decide)
      simp only [interval, hl]
      rw [if_pos (Or.inl trivial), durationDays_u32 num h0 h1]
      rfl
    · have hl : rustToLowercase v = "day" := caseVariant_lower v _ hv (by decide)
      simp only [interval, hl]
      rw [if_pos (Or.inr trivial), durationDays_u32 num h0 h1]
      rfl
  · rintro (hv | hv)
    · have hl : rustToLowercase v = "weeks" := caseVariant_lower v _ hv (by decide)
      simp only [interval, hl]
      rw [if_pos (Or.inl trivial), durationWeeks_u32 num h0 h1]
      rfl
    · have hl : rustToLowercase v = "week" := caseVariant_lower v _ hv (by decide)
      simp only [interval, hl]
      rw [if_pos (Or.inr trivial), durationWeeks_u32 num h0 h1]
      rfl

/-- Witness for C6 at a concrete mixed-case input. -/
theorem interval_case_insensitive_units_witness :
    interval 2 "MiNuTeS" = some (Except.ok 120) :=
  (interval_case_insensitive_units 2 "MiNuTeS" (by norm_num) (by norm_num)).1
    (Or.inl (by decide))

/-! ### C7: totality of `interval` -/

/-- C7 (amended): for every count in the range `remindme` can pass (the
`u32` range, cast to `i64`) and every scale string, `interval` returns a
value — a duration or an error — without panicking. -/
theorem interval_total_on_u32 (num : Int) (scale : String)
    (h0 : 0 ≤ num) (h1 : num ≤ 4294967295) :
    ∃ r, interval num scale = some r := by
  simp only [interval]
  split
  · exact ⟨Except.ok (num * 60), by rw [durationMinutes_u32 num h0 h1]; rfl⟩
  · split
    · exact ⟨Except.ok (num * 3600), by rw [durationHours_u32 num h0 h1]; rfl⟩
    · split
      · exact ⟨Except.ok (num * 86400), by rw [durationDays_u32 num h0 h1]; rfl⟩
      · split
        · exact ⟨Except.ok (num * 604800), by rw [durationWeeks_u32 num h0 h1]; rfl⟩
        · exact ⟨Except.error ("Invalid duration scale.\n" ++ USAGE), rfl⟩

/-- Witness for C7's amended theorem. -/
theorem interval_total_on_u32_witness :
    (interval 5 "decades").isSome = true := by
  obtain ⟨r, hr⟩ := interval_total_on_u32 5 "decades" (by norm_num) (by norm_num)
  rw [hr]
  rfl

/-- Counterexample to C7 as stated: at `i64::MAX` minutes the chrono
constructor inside `interval` panics (`Duration::minutes` is out of
bounds), so `interval` is not total on all of its `i64` count domain. -/
theorem interval_panics_on_huge_count :
    interval 9223372036854775807 "minutes" = none := by decide

/-! ### C4: unsupported scale tokens give usage feedback as a success -/

/-- C4: for every unsupported scale token (any count, message, user, clock,
storage behaviour), `remindme` returns `Ok` carrying
"Invalid duration scale." followed by the usage string, and the stored
table is untouched (no storage call can have happened: the result is the
same for every storage oracle and the table is returned unchanged). -/
theorem remindme_invalid_scale_feedback (num : Nat) (scale message : String)
    (uid : Nat) (now : Int) (o : CreateOracle) (fid : Int) (db : DB)
    (h : rustToLowercase scale ∉
      (["minutes", "minute", "hours", "hour", "days", "day", "weeks", "week"] :
        List String)) :
    remindme num scale message uid now o fid db =
      some (Except.ok ("Invalid duration scale.\n" ++ USAGE), db) := by
  simp only [List.mem_cons, List.not_mem_nil, or_false, not_or] at h
  obtain ⟨h1, h2, h3, h4, h5, h6, h7, h8⟩ := h
  have hi : interval (Int.ofNat num) scale =
      some (Except.error ("Invalid duration scale.\n" ++ USAGE)) := by
    simp only [interval]
    rw [if_neg (by simp [h1, h2]), if_neg (by simp [h3, h4]),
      if_neg (by simp [h5, h6]), if_neg (by simp [h7, h8])]
  simp only [remindme, hi]

/-- Witness for C4 at a concrete unsupported token. -/
theorem remindme_invalid_scale_feedback_witness :
    remindme 3 "fortnights" "x" 5 0 ⟨false, false⟩ 9 ⟨[]⟩ =
      some (Except.ok ("Invalid duration scale.\n" ++ USAGE), ⟨[]⟩) :=
  remindme_invalid_scale_feedback 3 "fortnights" "x" 5 0 ⟨false, false⟩ 9 ⟨[]⟩
    (by decide)

/-! ### C5: overflow of `now + interval` fails the command, no row created -/

/-- C5: whenever the parsed interval makes `now + interval` leave the
representable `NaiveDateTime` range, `remindme` fails with the
"Date overflow" command error (an `Err`, unlike validation feedback) and
the stored table is unchanged. -/
theorem remindme_overflow_no_row (num : Nat) (scale message : String)
    (uid : Nat) (now : Int) (o : CreateOracle) (fid : Int) (db : DB) (iv : Int)
    (hiv : interval (Int.ofNat num) scale = some (Except.ok iv))
    (hov : ¬(ndtMinTs ≤ now + iv ∧ now + iv ≤ ndtMaxTs)) :
    remindme num scale message uid now o fid db =
      some (Except.error (CommandError.generic "Date overflow"), db) := by
  have hadd : checked_add_signed now iv = none := by
    simp only [checked_add_signed, if_neg hov]
  simp only [remindme, hiv, hadd]

/-- Witness for C5: one minute past the largest representable instant. -/
theorem remindme_overflow_no_row_witness :
    remindme 1 "minutes" "x" 5 8210298412799 ⟨false, false⟩ 0 ⟨[]⟩ =
      some (Except.error (CommandError.generic "Date overflow"), ⟨[]⟩) :=
  remindme_overflow_no_row 1 "minutes" "x" 5 8210298412799 ⟨false, false⟩ 0 ⟨[]⟩
    60 (by decide) (by decide)

/-! ### C8: delivered text -/

/-- C8: for every user identifier that resolves (and a transport that
accepts the send), delivering an empty message sends exactly the fixed
fallback text, and delivering a non-empty message sends text containing
the original message verbatim as a substring. -/
theorem dm_sends_expected_text (o : DMOracle) (uid message : String) (u : Nat)
    (hp : userIdFromStr uid = some u) (hg : o.getFails = false)
    (hs : o.sendFails = false) :
    dm_with_message o uid message = Except.ok (dm_response message) ∧
    (message = "" → dm_response message = fallbackText) ∧
    (message ≠ "" → ∃ pre post,
      (dm_response message).data = pre ++ message.data ++ post) := by
  refine ⟨?_, ?_, ?_⟩
  · simp [dm_with_message, hp, hg, hs]
  · intro h
    simp [dm_response, h]
  · intro h
    refine ⟨dmHeader.data, [], ?_⟩
    simp only [dm_response, if_neg h, List.append_nil]
    rfl

/-- Witness for C8: both the empty and the non-empty case at a concrete
identifier. -/
theorem dm_sends_expected_text_witness :
    dm_with_message ⟨false, false⟩ "123" "" = Except.ok fallbackText := by
  have h := dm_sends_expected_text ⟨false, false⟩ "123" "" 123 (by decide) rfl rfl
  rw [h.1, h.2.1 rfl]

/-! ### C10: stored decimal id parses back to the same user id -/

/-- Facts about the characters produced by decimal formatting. -/
theorem digitChar_props (d : Nat) (h : d < 10) :
    (Nat.digitChar d).isDigit = true ∧ (Nat.digitChar d).toNat - 48 = d ∧
      Nat.digitChar d ≠ '+' := by
  interval_cases d <;> exact ⟨by decide, by decide, by decide⟩

/-- Every digit produced by `natToDigitsAux` is below 10. -/
theorem natToDigitsAux_lt10 : ∀ fuel n d, d ∈ natToDigitsAux fuel n → d < 10 := by
  intro fuel
  induction fuel with
  | zero =>
    intro n d h
    simp [natToDigitsAux] at h
  | succ f ih =>
    intro n d h
    cases n with
    | zero => simp [natToDigitsAux] at h
    | succ m =>
      simp only [natToDigitsAux, List.mem_cons] at h
      rcases h with h | h
      · subst h; exact Nat.mod_lt _ (by norm_num)
      · exact ih _ _ h

/-- With enough fuel the digit list of a positive number is non-empty. -/
theorem natToDigitsAux_ne_nil (fuel n : Nat) (h0 : n ≠ 0) (hf : n ≤ fuel) :
    natToDigitsAux fuel n ≠ [] := by
  cases fuel with
  | zero => omega
  | succ f =>
    cases n with
    | zero => exact absurd rfl h0
    | succ m => simp [natToDigitsAux]

/-- Horner evaluation of the reversed (big-endian) digit list recovers the
number. -/
theorem natToDigitsAux_horner : ∀ fuel n acc, n ≤ fuel →
    ((natToDigitsAux fuel n).reverse).foldl (fun a d => a * 10 + d) acc =
      acc * 10 ^ (natToDigitsAux fuel n).length + n := by
  intro fuel
  induction fuel with
  | zero =>
    intro n acc h
    have : n = 0 := by omega
    subst this
    simp [natToDigitsAux]
  | succ f ih =>
    intro n acc h
    cases n with
    | zero => simp [natToDigitsAux]
    | succ m =>
      have hle : (m + 1) / 10 ≤ f := by
        have := Nat.div_lt_self (Nat.succ_pos m) (by norm_num : 1 < 10)
        omega
      simp only [natToDigitsAux, List.reverse_cons, List.foldl_append,
        List.foldl_cons, List.foldl_nil, List.length_cons]
      rw [ih _ acc hle, pow_succ, ← mul_assoc]
      generalize acc * 10 ^ (natToDigitsAux f ((m + 1) / 10)).length = X
      omega

/-- Folding the char-level accumulator over formatted digits equals folding
the digit values. -/
theorem foldl_map_digitChar : ∀ (M : List Nat) (acc : Nat), (∀ d ∈ M, d < 10) →
    (M.map Nat.digitChar).foldl (fun a c => a * 10 + (c.toNat - 48)) acc =
      M.foldl (fun a d => a * 10 + d) acc := by
  intro M
  induction M with
  | nil => intro acc _; rfl
  | cons d M ih =>
    intro acc h
    simp only [List.map_cons, List.foldl_cons]
    rw [(digitChar_props d (h d (by simp))).2.1]
    exact ih _ (fun x hx => h x (by simp [hx]))

/-- C10: for every `u64` user id, the decimal string `remindme` stores
(`format!("{}", user_id.0)`) parses back through `UserId::from_str` in
`dm_with_message` to the identical id, so a claimed reminder's delivery is
addressed to exactly the user who submitted it. -/
theorem userid_display_roundtrip (id : Nat) (h : id < u64Count) :
    userIdFromStr (u64Display id) = some id := by
  by_cases h0 : id = 0
  · subst h0; decide
  · have hd10 : ∀ d ∈ (natDecDigits id).reverse, d < 10 := by
      intro d hd
      exact natToDigitsAux_lt10 id id d (List.mem_reverse.mp hd)
    have hne : (natDecDigits id).reverse.map Nat.digitChar ≠ [] := by
      simp only [ne_eq, List.map_eq_nil_iff, List.reverse_eq_nil_iff]
      exact natToDigitsAux_ne_nil id id h0 (le_refl id)
    cases hL : (natDecDigits id).reverse.map Nat.digitChar with
    | nil => exact absurd hL hne
    | cons c rest =>
      have hdisp : u64Display id = ⟨c :: rest⟩ := by
        rw [u64Display, if_neg h0, hL]
      have hcmem : c ∈ (natDecDigits id).reverse.map Nat.digitChar := by
        rw [hL]; exact List.mem_cons_self c rest
      obtain ⟨dc, hdcmem, hdc⟩ := List.mem_map.mp hcmem
      have hcplus : c ≠ '+' := by
        rw [← hdc]
        exact (digitChar_props dc (hd10 dc hdcmem)).2.2
      have halld : ∀ x ∈ c :: rest, Char.isDigit x = true := by
        intro x hx
        rw [← hL] at hx
        obtain ⟨dx, hdxmem, hdx⟩ := List.mem_map.mp hx
        rw [← hdx]
        exact (digitChar_props dx (hd10 dx hdxmem)).1
      have hfold :
          (c :: rest).foldl (fun acc ch => acc * 10 + (ch.toNat - 48)) 0 = id := by
        rw [← hL, foldl_map_digitChar _ 0 hd10]
        have := natToDigitsAux_horner id id 0 (le_refl id)
        simpa [natDecDigits] using this
      rw [hdisp]
      show (if (if c = '+' then rest else c :: rest) = [] then none
            else parseDigitsU64 (if c = '+' then rest else c :: rest)) = some id
      simp only [if_neg hcplus]
      rw [if_neg (by exact List.cons_ne_nil c rest)]
      simp only [parseDigitsU64]
      rw [if_pos (List.all_eq_true.mpr halld), hfold, if_pos h]

/-- Witness for C10 at a concrete id. -/
theorem userid_display_roundtrip_witness :
    userIdFromStr (u64Display 1234567890) = some 1234567890 :=
  userid_display_roundtrip 1234567890 (by norm_num [u64Count])

/-! ### Helper lemmas about the claim operation -/

/-- The per-row delete loop only removes rows. -/
theorem deleteRows_post_subset : ∀ (rems : List Reminder) (o : StorageOracle)
    (db : DB), ((deleteRows rems o db).1).rows ⊆ db.rows := by
  intro rems
  induction rems with
  | nil => intro o db x hx; exact hx
  | cons r rest ih =>
    intro o db
    simp only [deleteRows]
    split
    · intro x hx; exact hx
    · intro x hx
      exact List.filter_subset' _ (ih o ⟨db.rows.filter (fun row => row.id ≠ r.id)⟩ hx)

/-- When no delete fails, the loop reports success and removes exactly the
rows whose id was selected. -/
theorem deleteRows_ok_spec : ∀ (rems : List Reminder) (o : StorageOracle)
    (db : DB), (∀ i, o.deleteFails i = false) →
    (deleteRows rems o db).2 = true ∧
    (∀ row, row ∈ ((deleteRows rems o db).1).rows ↔
      row ∈ db.rows ∧ row.id ∉ rems.map Reminder.id) := by
  intro rems
  induction rems with
  | nil =>
    intro o db _
    exact ⟨rfl, by simp [deleteRows]⟩
  | cons r rest ih =>
    intro o db h
    simp only [deleteRows, h r.id, Bool.false_eq_true, if_false]
    obtain ⟨ht, hmem⟩ := ih o ⟨db.rows.filter (fun row => row.id ≠ r.id)⟩ h
    refine ⟨ht, fun row => ?_⟩
    rw [hmem row]
    simp only [List.mem_filter, List.map_cons, List.mem_cons, decide_not,
      Bool.not_eq_eq_eq_not, Bool.not_true, decide_eq_false_iff_not, not_or]
    tauto

/-- A loop that reports success deleted every selected id. -/
theorem deleteRows_success_not_mem : ∀ (rems : List Reminder)
    (o : StorageOracle) (db db' : DB), deleteRows rems o db = (db', true) →
    ∀ row ∈ db'.rows, row.id ∉ rems.map Reminder.id := by
  intro rems
  induction rems with
  | nil => intro o db db' _ row _; simp
  | cons r rest ih =>
    intro o db db' h row hrow
    simp only [deleteRows] at h
    by_cases hf : o.deleteFails r.id
    · simp [hf] at h
    · rw [if_neg (by simp [hf])] at h
      have hrest := ih o ⟨db.rows.filter (fun row => row.id ≠ r.id)⟩ db' h row hrow
      have hsub : db'.rows ⊆ db.rows.filter (fun row => decide (row.id ≠ r.id)) := by
        have := deleteRows_post_subset rest o ⟨db.rows.filter (fun row => row.id ≠ r.id)⟩
        rw [h] at this
        exact this
      have hne : row.id ≠ r.id := by
        have := List.mem_filter.mp (hsub hrow)
        simpa using this.2
      simp only [List.map_cons, List.mem_cons, not_or]
      exact ⟨hne, hrest⟩

/-- Either a claim call hands back nothing, or exactly the reminders whose
row was strictly past due. -/
theorem gxr_claimed_eq (now : Int) (o : StorageOracle) (db : DB) :
    claimed (get_expired_reminders now o db).1 = [] ∨
    claimed (get_expired_reminders now o db).1 =
      (db.rows.filter (fun r => r.date < now)).map Row.toReminder := by
  simp only [get_expired_reminders]
  by_cases hc : o.connFails = true
  · left; simp [hc, claimed]
  · by_cases hq : o.queryFails = true
    · left; simp [hc, hq, claimed]
    · simp only [hc, hq, Bool.false_eq_true, if_false]
      split
      · right; rfl
      · left; rfl

/-- Reminders handed back by a claim call come from strictly past-due rows
of the pre-call table. -/
theorem gxr_claimed_sub (now : Int) (o : StorageOracle) (db : DB) :
    ∀ rem ∈ claimed (get_expired_reminders now o db).1,
      ∃ row ∈ db.rows, row.toReminder = rem ∧ row.date < now := by
  intro rem h
  rcases gxr_claimed_eq now o db with he | he
  · rw [he] at h; exact absurd h (List.not_mem_nil rem)
  · rw [he] at h
    obtain ⟨row, hmem, heq⟩ := List.mem_map.mp h
    have hf := List.mem_filter.mp hmem
    exact ⟨row, hf.1, heq, by simpa using hf.2⟩

/-- A claim call only removes rows. -/
theorem gxr_post_subset (now : Int) (o : StorageOracle) (db : DB) :
    ((get_expired_reminders now o db).2).rows ⊆ db.rows := by
  simp only [get_expired_reminders]
  by_cases hc : o.connFails = true
  · simp only [hc, if_true]; intro x hx; exact hx
  · by_cases hq : o.queryFails = true
    · simp only [hc, hq, Bool.false_eq_true, if_false, if_true]; intro x hx; exact hx
    · simp only [hc, hq, Bool.false_eq_true, if_false]
      split
      · exact deleteRows_post_subset _ o db
      · exact deleteRows_post_subset _ o db

/-- Under a failure-free storage oracle the claim call succeeds, returns
exactly the strictly past-due reminders, and leaves exactly the other rows
stored. -/
theorem gxr_ok_spec (now : Int) (o : StorageOracle) (db : DB)
    (ho : o.connFails = false ∧ o.queryFails = false ∧
      ∀ i, o.deleteFails i = false) :
    (get_expired_reminders now o db).1 =
      Except.ok ((db.rows.filter (fun r => r.date < now)).map Row.toReminder) ∧
    (∀ row, row ∈ ((get_expired_reminders now o db).2).rows ↔
      row ∈ db.rows ∧ row.id ∉
        (((db.rows.filter (fun r => r.date < now)).map Row.toReminder).map
          Reminder.id)) := by
  obtain ⟨hc, hq, hd⟩ := ho
  obtain ⟨ht, hmem⟩ := deleteRows_ok_spec
    ((db.rows.filter (fun r => r.date < now)).map Row.toReminder) o db hd
  constructor
  · simp only [get_expired_reminders, hc, hq, Bool.false_eq_true, if_false]
    rw [if_pos ht]
  · intro row
    have hpost : ((get_expired_reminders now o db).2).rows =
        ((deleteRows ((db.rows.filter (fun r => r.date < now)).map
          Row.toReminder) o db).1).rows := by
      simp only [get_expired_reminders, hc, hq, Bool.false_eq_true, if_false]
      rw [if_pos ht]
    rw [hpost]
    exact hmem row

/-- No reminder handed back by a claim call has its row still stored when
the call returns. -/
theorem gxr_claimed_not_in_post (now : Int) (o : StorageOracle) (db : DB) :
    ∀ rem ∈ claimed (get_expired_reminders now o db).1,
      ∀ row ∈ ((get_expired_reminders now o db).2).rows, row.id ≠ rem.id := by
  simp only [get_expired_reminders]
  by_cases hc : o.connFails = true
  · simp [hc, claimed]
  · by_cases hq : o.queryFails = true
    · simp [hc, hq, claimed]
    · simp only [hc, hq, Bool.false_eq_true, if_false]
      split
      · intro rem hrem row hrow
        rename_i hres
        have hpair : deleteRows ((db.rows.filter (fun r => r.date < now)).map
            Row.toReminder) o db =
            ((deleteRows ((db.rows.filter (fun r => r.date < now)).map
              Row.toReminder) o db).1, true) := by
          rw [← hres]
        have hnotin := deleteRows_success_not_mem _ o db _ hpair row hrow
        intro heq
        apply hnotin
        rw [heq]
        exact List.mem_map.mpr ⟨rem, hrem, rfl⟩
      · intro rem hrem
        exact absurd hrem (List.not_mem_nil rem)

/-- Any chain of claim calls only removes rows. -/
theorem runClaims_subset : ∀ (plan : List (Int × StorageOracle)) (db : DB),
    (runClaims plan db).rows ⊆ db.rows := by
  intro plan
  induction plan with
  | nil => intro db x hx; exact hx
  | cons c rest ih =>
    intro db x hx
    exact gxr_post_subset c.1 c.2 db (ih (get_expired_reminders c.1 c.2 db).2 hx)

/-! ### C1: which reminders a claim returns, and their removal -/

/-- C1 (amended): under unique row ids and failure-free storage, a claim at
time `now` returns a stored reminder if and only if `now` is strictly
after its `due_at` (the query uses `date < current_timestamp`); every such
returned reminder is absent from storage afterwards and is never returned
by any later claim call. -/
theorem claim_returns_iff_strictly_due (db : DB) (now : Int) (o : StorageOracle)
    (ho : o.connFails = false ∧ o.queryFails = false ∧
      ∀ i, o.deleteFails i = false)
    (hn : (db.rows.map Row.id).Nodup) :
    (∀ r ∈ db.rows,
      (r.toReminder ∈ claimed (get_expired_reminders now o db).1 ↔
        r.date < now)) ∧
    (∀ r ∈ db.rows, r.date < now →
      (∀ row ∈ ((get_expired_reminders now o db).2).rows, row.id ≠ r.id) ∧
      (∀ (plan : List (Int × StorageOracle)) (n' : Int) (o' : StorageOracle),
        ∀ rem ∈ claimed (get_expired_reminders n' o'
          (runClaims plan (get_expired_reminders now o db).2)).1,
          rem.id ≠ r.id)) := by
  obtain ⟨hok, hpost⟩ := gxr_ok_spec now o db ho
  have hcl : claimed (get_expired_reminders now o db).1 =
      (db.rows.filter (fun r => r.date < now)).map Row.toReminder := by
    rw [hok]; rfl
  have hidin : ∀ r ∈ db.rows, r.date < now →
      r.id ∈ (((db.rows.filter (fun r => r.date < now)).map Row.toReminder).map
        Reminder.id) := by
    intro r hr hdate
    exact List.mem_map.mpr ⟨r.toReminder,
      List.mem_map.mpr ⟨r, List.mem_filter.mpr ⟨hr, by simpa using hdate⟩, rfl⟩, rfl⟩
  constructor
  · intro r hr
    rw [hcl]
    constructor
    · intro hmem
      obtain ⟨row, hrowf, heq⟩ := List.mem_map.mp hmem
      have hrowmem := (List.mem_filter.mp hrowf).1
      have hrowdate : row.date < now := by
        simpa using (List.mem_filter.mp hrowf).2
      have hid : row.id = r.id := congrArg Reminder.id heq
      have : row = r := List.inj_on_of_nodup_map hn hrowmem hr hid
      rw [← this]
      exact hrowdate
    · intro hdate
      exact List.mem_map.mpr ⟨r, List.mem_filter.mpr ⟨hr, by simpa using hdate⟩, rfl⟩
  · intro r hr hdate
    constructor
    · intro row hrow heq
      have := (hpost row).mp hrow
      exact this.2 (heq ▸ hidin r hr hdate)
    · intro plan n' o' rem hrem
      obtain ⟨row, hrowmem, hrowrem, _⟩ :=
        gxr_claimed_sub n' o' (runClaims plan (get_expired_reminders now o db).2)
          rem hrem
      have hrow2 : row ∈ ((get_expired_reminders now o db).2).rows :=
        runClaims_subset plan _ hrowmem
      have hnotin := ((hpost row).mp hrow2).2
      intro heq
      apply hnotin
      have : row.id = rem.id := congrArg Reminder.id hrowrem
      rw [this, heq]
      exact hidin r hr hdate

/-- Witness for C1's amended theorem: one second past due, the reminder is
returned. -/
theorem claim_returns_iff_strictly_due_witness :
    Row.toReminder ⟨1, "7", 100, "m"⟩ ∈
      claimed (get_expired_reminders 101 noFailStorage ⟨[⟨1, "7", 100, "m"⟩]⟩).1 :=
  ((claim_returns_iff_strictly_due ⟨[⟨1, "7", 100, "m"⟩]⟩ 101 noFailStorage
    ⟨rfl, rfl, fun _ => rfl⟩ (by decide)).1 ⟨1, "7", 100, "m"⟩
    (by decide)).mpr (by decide)

/-- Counterexample to C1 as stated: a reminder due exactly at `now`
(`now ≥ due_at` holds) is not returned, because the query's comparison is
strict. -/
theorem claim_at_exact_due_not_returned :
    (100 : Int) ≥ 100 ∧
    Row.toReminder ⟨1, "7", 100, "m"⟩ ∉
      claimed (get_expired_reminders 100 noFailStorage ⟨[⟨1, "7", 100, "m"⟩]⟩).1 := by
  constructor
  · norm_num
  · decide

/-! ### C2: what a failed claim call guarantees -/

/-- C2 (amended): when the claim call returns a storage error it hands
nothing to the caller, so no row is ever delivered twice; if the error came
from acquiring the connection or from the select query the stored set is
unchanged, and in every case no row is added.  (A failing per-row delete
can, however, leave earlier selected rows already removed — see the
counterexample.) -/
theorem claim_error_guarantees (now : Int) (o : StorageOracle) (db : DB) :
    ((o.connFails = true ∨ o.queryFails = true) →
      get_expired_reminders now o db = (Except.error (), db)) ∧
    (∀ e, (get_expired_reminders now o db).1 = Except.error e →
      claimed (get_expired_reminders now o db).1 = []) ∧
    ((get_expired_reminders now o db).2).rows ⊆ db.rows := by
  refine ⟨?_, ?_, gxr_post_subset now o db⟩
  · intro h
    rcases h with h | h
    · simp [get_expired_reminders, h]
    · simp [get_expired_reminders, h]
  · intro e h
    rw [h]
    rfl

/-- Witness for C2's amended theorem: a connection failure leaves the table
untouched and returns the error. -/
theorem claim_error_guarantees_witness :
    get_expired_reminders 10 ⟨true, false, fun _ => false⟩ ⟨[⟨1, "7", 0, "a"⟩]⟩ =
      (Except.error (), ⟨[⟨1, "7", 0, "a"⟩]⟩) :=
  (claim_error_guarantees 10 ⟨true, false, fun _ => false⟩
    ⟨[⟨1, "7", 0, "a"⟩]⟩).1 (Or.inl rfl)

/-- Counterexample to C2 as stated: with two due rows and a `DELETE` that
fails on the second id, the call returns a storage error, yet the first
row has already been deleted (and was never handed to the caller), so the
stored set did change. -/
theorem claim_error_partial_delete :
    (get_expired_reminders 10 ⟨false, false, fun i => i = 2⟩
      ⟨[⟨1, "7", 0, "a"⟩, ⟨2, "8", 0, "b"⟩]⟩).1 = Except.error () ∧
    ((get_expired_reminders 10 ⟨false, false, fun i => i = 2⟩
      ⟨[⟨1, "7", 0, "a"⟩, ⟨2, "8", 0, "b"⟩]⟩).2).rows = [⟨2, "8", 0, "b"⟩] := by
  decide

/-! ### Helper lemmas about the poll loop -/

/-- One iteration stores back exactly the post-claim table. -/
theorem tick_fst_eq (inp : TickInput) (db : DB) :
    (tick inp db).1 = (get_expired_reminders inp.now inp.storage db).2 := by
  rcases hg : get_expired_reminders inp.now inp.storage db with ⟨r, d⟩
  cases r <;> simp [tick, hg]

/-- One iteration's recorded claim outcome is the claim call's result. -/
theorem tick_claimResult_eq (inp : TickInput) (db : DB) :
    ((tick inp db).2).claimResult =
      (get_expired_reminders inp.now inp.storage db).1 := by
  rcases hg : get_expired_reminders inp.now inp.storage db with ⟨r, d⟩
  cases r <;> simp [tick, hg]

/-- Every delivery attempted in an iteration is for a reminder whose row
was strictly past due in the pre-iteration table. -/
theorem tick_deliveries_from_db (inp : TickInput) (db : DB) :
    ∀ p ∈ ((tick inp db).2).deliveries,
      ∃ row ∈ db.rows, row.toReminder = p.1 ∧ row.date < inp.now := by
  intro p hp
  rcases hg : get_expired_reminders inp.now inp.storage db with ⟨r, d⟩
  cases r with
  | error e => simp [tick, hg] at hp
  | ok rows =>
    simp only [tick, hg, List.mem_map] at hp
    obtain ⟨rem, hrem, heq⟩ := hp
    have hrem2 : rem ∈ claimed (get_expired_reminders inp.now inp.storage db).1 := by
      rw [hg]; exact hrem
    obtain ⟨row, hrow, hroweq, hrowdate⟩ :=
      gxr_claimed_sub inp.now inp.storage db rem hrem2
    exact ⟨row, hrow, by rw [hroweq, ← heq], hrowdate⟩

/-- One iteration only removes rows. -/
theorem tick_post_subset (inp : TickInput) (db : DB) :
    ((tick inp db).1).rows ⊆ db.rows := by
  rw [tick_fst_eq]
  exact gxr_post_subset inp.now inp.storage db

/-- If no stored row carries a given id, no delivery in any run of further
iterations is addressed to a reminder with that id. -/
theorem runTicks_never_delivers (remId : Int) :
    ∀ (plan : List TickInput) (db : DB), (∀ row ∈ db.rows, row.id ≠ remId) →
      ∀ tr ∈ (runTicks plan db).2, ∀ p ∈ tr.deliveries, p.1.id ≠ remId := by
  intro plan
  induction plan with
  | nil =>
    intro db _ tr htr
    simp [runTicks] at htr
  | cons inp rest ih =>
    intro db h tr htr
    simp only [runTicks, List.mem_cons] at htr
    rcases htr with htr | htr
    · subst htr
      intro p hp
      obtain ⟨row, hrow, heq, _⟩ := tick_deliveries_from_db inp db p hp
      have hid : p.1.id = row.id := by rw [← heq]; rfl
      rw [hid]
      exact h row hrow
    · exact ih (tick inp db).1
        (fun row hrow => h row (tick_post_subset inp db hrow)) tr htr

/-! ### C3: rows are gone before delivery and failures are final -/

/-- C3: every reminder the poll loop claims has its row deleted from
storage before any delivery attempt is made (the table the deliveries run
against no longer carries its id), and — whatever each delivery's outcome,
including failure — no row with its id is stored afterwards and no later
iteration ever attempts a delivery for it again. -/
theorem claimed_removed_before_delivery (inp : TickInput) (db : DB) :
    ∀ rem ∈ claimed ((tick inp db).2).claimResult,
      (∀ row ∈ ((tick inp db).1).rows, row.id ≠ rem.id) ∧
      (∀ (plan : List TickInput), ∀ tr ∈ (runTicks plan (tick inp db).1).2,
        ∀ p ∈ tr.deliveries, p.1.id ≠ rem.id) := by
  intro rem hrem
  rw [tick_claimResult_eq] at hrem
  have hnot := gxr_claimed_not_in_post inp.now inp.storage db rem hrem
  have hnone : ∀ row ∈ ((tick inp db).1).rows, row.id ≠ rem.id := by
    intro row hrow
    exact hnot row (by rw [← tick_fst_eq inp db]; exact hrow)
  exact ⟨hnone, fun plan => runTicks_never_delivers rem.id plan (tick inp db).1 hnone⟩

/-- Witness for C3: a claimed reminder whose delivery fails is no longer
stored after the iteration. -/
theorem claimed_removed_before_delivery_witness :
    Reminder.mk 1 "7" "m" ∈
      claimed ((tick ⟨10, noFailStorage, fun _ => ⟨false, true⟩⟩
        ⟨[⟨1, "7", 0, "m"⟩]⟩).2).claimResult ∧
    ((tick ⟨10, noFailStorage, fun _ => ⟨false, true⟩⟩
      ⟨[⟨1, "7", 0, "m"⟩]⟩).1).rows = [] := by
  constructor
  · decide
  · have h := claimed_removed_before_delivery
      ⟨10, noFailStorage, fun _ => ⟨false, true⟩⟩ ⟨[⟨1, "7", 0, "m"⟩]⟩
      (Reminder.mk 1 "7" "m") (by decide)
    cases hr : ((tick ⟨10, noFailStorage, fun _ => ⟨false, true⟩⟩
        ⟨[⟨1, "7", 0, "m"⟩]⟩).1).rows with
    | nil => rfl
    | cons row rows =>
      exfalso
      have hmem : row ∈ ((tick ⟨10, noFailStorage, fun _ => ⟨false, true⟩⟩
          ⟨[⟨1, "7", 0, "m"⟩]⟩).1).rows := by
        rw [hr]; exact List.mem_cons_self row rows
      have hsub := tick_post_subset ⟨10, noFailStorage, fun _ => ⟨false, true⟩⟩
        ⟨[⟨1, "7", 0, "m"⟩]⟩ hmem
      have : row = ⟨1, "7", 0, "m"⟩ := by
        simpa using hsub
      exact h.1 row hmem (by rw [this])

/-! ### C9: the poll loop's per-iteration behaviour -/

/-- C9: every iteration sleeps the fixed 60 seconds; a claim failure is
logged as the only event and no delivery is attempted, while a successful
claim leads to one delivery attempt per claimed reminder in order —
independent of the other deliveries' outcomes — with each delivery failure
logged; and the loop never returns: every scheduled iteration produces its
trace, whatever failures occur. -/
theorem watch_loop_iteration_spec (inp : TickInput) (db : DB) :
    ((tick inp db).2).sleepSecs = 60 ∧
    (∀ e, (get_expired_reminders inp.now inp.storage db).1 = Except.error e →
      ((tick inp db).2).logs = [LogEvent.claimFailed] ∧
      ((tick inp db).2).deliveries = []) ∧
    (∀ rows, (get_expired_reminders inp.now inp.storage db).1 = Except.ok rows →
      ((tick inp db).2).deliveries.map Prod.fst = rows ∧
      (∀ p ∈ ((tick inp db).2).deliveries,
        p.2 = dm_with_message (inp.dm p.1) p.1.user_id p.1.message) ∧
      (∀ p ∈ ((tick inp db).2).deliveries, ∀ e, p.2 = Except.error e →
        LogEvent.dmFailed p.1 ∈ ((tick inp db).2).logs)) ∧
    (∀ plan : List TickInput, ((runTicks plan db).2).length = plan.length) := by
  refine ⟨?_, ?_, ?_, ?_⟩
  · rcases hg : get_expired_reminders inp.now inp.storage db with ⟨r, d⟩
    cases r <;> simp [tick, hg]
  · intro e he
    rcases hg : get_expired_reminders inp.now inp.storage db with ⟨r, d⟩
    rw [hg] at he
    cases r with
    | error e2 => simp [tick, hg]
    | ok rows => simp at he
  · intro rows hr
    rcases hg : get_expired_reminders inp.now inp.storage db with ⟨r, d⟩
    rw [hg] at hr
    cases r with
    | error e2 => simp at hr
    | ok rows2 =>
      have : rows2 = rows := by simpa using hr
      subst this
      refine ⟨?_, ?_, ?_⟩
      · simp only [tick, hg, List.map_map]
        exact List.map_id' rows2
      · intro p hp
        simp only [tick, hg, List.mem_map] at hp
        obtain ⟨rem, _, heq⟩ := hp
        rw [← heq]
      · intro p hp e hpe
        simp only [tick, hg] at hp ⊢
        exact List.mem_filterMap.mpr ⟨p, hp, by rw [hpe]⟩
  · intro plan
    induction plan generalizing db with
    | nil => rfl
    | cons inp2 rest ih => simp [runTicks, ih]

/-- Witness for C9: a failing claim logs and delivers nothing. -/
theorem watch_loop_iteration_spec_witness :
    ((tick ⟨0, ⟨true, false, fun _ => false⟩, fun _ => noFailDM⟩ ⟨[]⟩).2).logs =
      [LogEvent.claimFailed] :=
  ((watch_loop_iteration_spec ⟨0, ⟨true, false, fun _ => false⟩,
    fun _ => noFailDM⟩ ⟨[]⟩).2.1 () (by decide)).1

/-- Counterexample to C6 as stated over every count: at `i64::MAX` weeks
the matching arm panics inside `Duration::weeks` rather than returning the
scaled duration. -/
theorem interval_weeks_huge_count_no_duration :
    caseVariant "WEEKS" "weeks" ∧
    interval 9223372036854775807 "WEEKS" ≠
      some (Except.ok (9223372036854775807 * 604800)) := by
  exact ⟨by decide, by decide⟩
